import Mathlib

/-!
Verification of the Numerov radial Schrödinger-equation integrator
(`numerov_solve` in `Second_notebook_SE_solver.ipynb`).

The source routine is:

```python
def numerov_solve(V, r, k, l):
    h = r[1] - r[0]
    N = r.shape[0]
    u = np.zeros(N)
    u[0] = 0.0
    u[1] = r[1]**(l + 1)
    V_eff = V(r) + (l * (l + 1) / np.square(r))
    f = k**2 - V_eff
    for i in range(1, N - 1):
        u[i + 1] = ((2 * (1 - (5 * h**2 / 12) * f[i]) * u[i] -
                     (1 + (h**2 / 12) * f[i - 1]) * u[i - 1]) /
                    (1 + (h**2 / 12) * f[i + 1]))
    return r, u
```

We embed it over the rationals (exact field arithmetic; the source's
floating-point rounding is not modelled).  The grid is a `List ℚ`
indexed as the numpy array `r[i]`; the sequential loop becomes a
two-step recursion producing the value written into `u[j]`.
-/

namespace SESolver

/-- Indexing `r[i]` into the radial grid array. -/
def gridAt (r : List ℚ) (i : ℕ) : ℚ := r.getD i 0

/-- Source line `V_eff = V(r) + (l * (l + 1) / np.square(r))`, at grid index `i`. -/
def numerovVeff (V : ℚ → ℚ) (r : List ℚ) (l : ℕ) (i : ℕ) : ℚ :=
  V (gridAt r i) + (l * (l + 1) : ℚ) / gridAt r i ^ 2

/-- Source line `f = k**2 - V_eff`, at grid index `i`. -/
def numerovF (V : ℚ → ℚ) (r : List ℚ) (k : ℚ) (l : ℕ) (i : ℕ) : ℚ :=
  k ^ 2 - numerovVeff V r l i

/-- Source line `h = r[1] - r[0]`. -/
def stepH (r : List ℚ) : ℚ := gridAt r 1 - gridAt r 0

/-- The value the source writes into `u[j]`: the seeds `u[0] = 0.0` and
`u[1] = r[1]**(l + 1)`, and for `j = i + 2` the body of the Numerov loop
(the loop iteration with index `i + 1` writes `u[i + 2]` from `u[i + 1]`,
`u[i]` and `f[i]`, `f[i + 1]`, `f[i + 2]`). -/
def numerovU (V : ℚ → ℚ) (r : List ℚ) (k : ℚ) (l : ℕ) : ℕ → ℚ
  | 0 => 0
  | 1 => gridAt r 1 ^ (l + 1)
  | i + 2 =>
      (2 * (1 - 5 * stepH r ^ 2 / 12 * numerovF V r k l (i + 1)) * numerovU V r k l (i + 1)
          - (1 + stepH r ^ 2 / 12 * numerovF V r k l i) * numerovU V r k l i)
        / (1 + stepH r ^ 2 / 12 * numerovF V r k l (i + 2))

/-- `numerov_solve(V, r, k, l)`: returns the pair `(r, u)` where `u` has one
entry per grid point, filled as in the source. -/
def numerov_solve (V : ℚ → ℚ) (r : List ℚ) (k : ℚ) (l : ℕ) : List ℚ × List ℚ :=
  (r, (List.range r.length).map (numerovU V r k l))

/-- Every divisor of every division the source performs, in order:
`np.square(r)` under the centrifugal term `l * (l + 1) / np.square(r)` (one
divisor per grid point), the literal `12` under `5 * h**2 / 12` and
`h**2 / 12`, and the Numerov denominator `1 + (h**2 / 12) * f[i + 1]` for
each loop index `i = 1 .. N - 2`. -/
def numerovDivisors (V : ℚ → ℚ) (r : List ℚ) (k : ℚ) (l : ℕ) : List ℚ :=
  (List.range r.length).map (fun i => gridAt r i ^ 2) ++ [12] ++
    (List.range (r.length - 2)).map
      (fun j => 1 + stepH r ^ 2 / 12 * numerovF V r k l (j + 2))

/-- The spec's effective potential, following the spec's words:
`V_eff[i] = potential(r[i]) + l*(l+1)/r[i]^2`. -/
def specVeff (V : ℚ → ℚ) (r : List ℚ) (l : ℕ) (i : ℕ) : ℚ :=
  V (gridAt r i) + (l * (l + 1) : ℚ) / gridAt r i ^ 2

/-- The spec's recurrence driver, following the spec's words:
`f[i] = k2 - V_eff[i]` where `k2` is the contract's real scalar input
(the wavenumber squared). -/
def specDriver (V : ℚ → ℚ) (r : List ℚ) (k2 : ℚ) (l : ℕ) (i : ℕ) : ℚ :=
  k2 - specVeff V r l i

/-- The `j`-th entry of the returned wavefunction is the `j`-th value of the
recursion, for `j` within the grid. -/
theorem solve_u_getD (V : ℚ → ℚ) (r : List ℚ) (k : ℚ) (l : ℕ) (j : ℕ)
    (hj : j < r.length) :
    ((numerov_solve V r k l).2).getD j 0 = numerovU V r k l j := by
  simp [numerov_solve, List.getD_eq_getElem?_getD, List.getElem?_map,
    List.getElem?_range, hj]

/-- The driver is unchanged when the wavenumber argument is negated, since it
enters only through `k**2`. -/
theorem numerovF_neg_eq (V : ℚ → ℚ) (r : List ℚ) (k : ℚ) (l : ℕ) :
    numerovF V r (-k) l = numerovF V r k l := by
  funext i
  simp [numerovF, neg_sq]

/-- Every value of the recursion is unchanged when the wavenumber argument is
negated. -/
theorem numerovU_neg_eq (V : ℚ → ℚ) (r : List ℚ) (k : ℚ) (l : ℕ) :
    ∀ n, numerovU V r (-k) l n = numerovU V r k l n := by
  intro n
  induction n using Nat.strong_induction_on with
  | _ n ih =>
    match n with
    | 0 => rfl
    | 1 => rfl
    | m + 2 =>
      simp only [numerovU]
      rw [numerovF_neg_eq V r k l, ih (m + 1) (by omega), ih m (by omega)]

/-- Claim C1 (amended): the code computes the spec's effective potential
`V_eff[i] = potential(r[i]) + l*(l+1)/r[i]^2` at every grid point, and its
recurrence driver equals the spec's driver `f[i] = k2 - V_eff[i]` with
`k2 = k^2`, the square of the real scalar argument `k`: the function accepts
the wavenumber itself, not the wavenumber squared, so the driver offset `k^2`
is never negative for a real argument. -/
theorem driver_is_square_of_input (V : ℚ → ℚ) (r : List ℚ) (k : ℚ) (l : ℕ) (i : ℕ) :
    numerovVeff V r l i = specVeff V r l i ∧
      numerovF V r k l i = specDriver V r (k ^ 2) l i :=
  ⟨rfl, rfl⟩

/-- Claim C1 (counterexample): with the scalar argument `-1` (a negative value,
as the claim's reading would allow for a bound state), the driver the code
computes at grid point 0 is `(-1)^2 - V_eff[0] = 1`, not
`(-1) - V_eff[0] = -1`: the driver is not `input - V_eff`. -/
theorem driver_not_contract_scalar_input :
    numerovF (fun _ => 0) [1, 2, 3] (-1) 0 0 ≠
      specDriver (fun _ => 0) [1, 2, 3] (-1) 0 0 := by
  norm_num [numerovF, specDriver, numerovVeff, specVeff, gridAt]

/-- Claim C3: for every valid input (grid of at least 3 points), the returned
wavefunction satisfies the seed boundary conditions exactly: `u[0] = 0` and
`u[1] = r[1]^(l+1)`. -/
theorem numerov_seed_values (V : ℚ → ℚ) (r : List ℚ) (k : ℚ) (l : ℕ)
    (hN : 3 ≤ r.length) :
    ((numerov_solve V r k l).2).getD 0 0 = 0 ∧
      ((numerov_solve V r k l).2).getD 1 0 = gridAt r 1 ^ (l + 1) := by
  refine ⟨?_, ?_⟩
  · rw [solve_u_getD V r k l 0 (by omega)]
    rfl
  · rw [solve_u_getD V r k l 1 (by omega)]
    rfl

/-- Claim C3 (witness): on the grid `[1, 2, 3]` with `k = 3` and `l = 1`,
the seeds are `u[0] = 0` and `u[1] = r[1]^2`. -/
theorem numerov_seed_values_witness :
    ((numerov_solve (fun x => x) [1, 2, 3] 3 1).2).getD 0 0 = 0 ∧
      ((numerov_solve (fun x => x) [1, 2, 3] 3 1).2).getD 1 0 =
        gridAt [1, 2, 3] 1 ^ (1 + 1) :=
  numerov_seed_values (fun x => x) [1, 2, 3] 3 1 (by norm_num)

/-- Claim C5: the returned wavefunction has exactly one entry per grid point:
its length equals the length of the input grid. -/
theorem numerov_output_length (V : ℚ → ℚ) (r : List ℚ) (k : ℚ) (l : ℕ) :
    ((numerov_solve V r k l).2).length = r.length := by
  simp [numerov_solve]

/-- Claim C7: `numerov_solve` is a pure deterministic mapping — the returned
grid is the input grid unchanged (no mutation), and two calls with identical
inputs return identical outputs. -/
theorem numerov_solve_pure (V W : ℚ → ℚ) (r s : List ℚ) (k m : ℚ) (l n : ℕ)
    (hV : V = W) (hr : r = s) (hk : k = m) (hl : l = n) :
    (numerov_solve V r k l).1 = r ∧
      numerov_solve V r k l = numerov_solve W s m n := by
  subst hV hr hk hl
  exact ⟨rfl, rfl⟩

/-- Claim C7 (witness): a concrete call returns its grid unchanged and agrees
with a second call on the same inputs. -/
theorem numerov_solve_pure_witness :
    (numerov_solve (fun x => x) [1, 2, 3] 2 0).1 = [1, 2, 3] ∧
      numerov_solve (fun x => x) [1, 2, 3] 2 0 =
        numerov_solve (fun x => x) [1, 2, 3] 2 0 :=
  numerov_solve_pure (fun x => x) (fun x => x) [1, 2, 3] [1, 2, 3] 2 2 0 0
    rfl rfl rfl rfl

/-- Claim C10: `numerov_solve(V, r, k, l) = numerov_solve(V, r, -k, l)` — the
result is an even function of the wavenumber argument, which enters only
through its square. -/
theorem numerov_even_in_wavenumber (V : ℚ → ℚ) (r : List ℚ) (k : ℚ) (l : ℕ) :
    numerov_solve V r (-k) l = numerov_solve V r k l := by
  have h : numerovU V r (-k) l = numerovU V r k l :=
    funext (numerovU_neg_eq V r k l)
  simp [numerov_solve, h]

/-- Claim C2: on a uniform grid of `N ≥ 3` points with step `h`, each interior
step `i = 1 .. N-2` of the returned wavefunction satisfies the three-point
Numerov formula
`u[i+1] = (2*(1 - 5h^2/12*f[i])*u[i] - (1 + h^2/12*f[i-1])*u[i-1]) / (1 + h^2/12*f[i+1])`
with `f` the recurrence driver computed from the same inputs. -/
theorem numerov_recurrence_step (V : ℚ → ℚ) (r : List ℚ) (k : ℚ) (l : ℕ) (h : ℚ)
    (N i : ℕ) (hlen : r.length = N) (hN : 3 ≤ N)
    (hstep : ∀ j, j + 1 < N → gridAt r (j + 1) - gridAt r j = h)
    (h1 : 1 ≤ i) (h2 : i ≤ N - 2) :
    ((numerov_solve V r k l).2).getD (i + 1) 0 =
      (2 * (1 - 5 * h ^ 2 / 12 * numerovF V r k l i) *
            ((numerov_solve V r k l).2).getD i 0
          - (1 + h ^ 2 / 12 * numerovF V r k l (i - 1)) *
            ((numerov_solve V r k l).2).getD (i - 1) 0)
        / (1 + h ^ 2 / 12 * numerovF V r k l (i + 1)) := by
  obtain ⟨m, rfl⟩ : ∃ m, i = m + 1 := ⟨i - 1, by omega⟩
  have hh : stepH r = h := by
    have h0 := hstep 0 (by omega)
    simpa [stepH] using h0
  rw [solve_u_getD V r k l (m + 1 + 1) (by omega),
    solve_u_getD V r k l (m + 1) (by omega),
    show m + 1 - 1 = m from rfl,
    solve_u_getD V r k l m (by omega)]
  show numerovU V r k l (m + 2) = _
  simp only [numerovU]
  rw [hh]

/-- Claim C2 (witness): on the uniform grid `[1, 2, 3]` with `h = 1`, `k = 2`,
`l = 0`, the interior step `i = 1` satisfies the Numerov formula. -/
theorem numerov_recurrence_step_witness :
    ((numerov_solve (fun _ => 0) [1, 2, 3] 2 0).2).getD 2 0 =
      (2 * (1 - 5 * 1 ^ 2 / 12 * numerovF (fun _ => 0) [1, 2, 3] 2 0 1) *
            ((numerov_solve (fun _ => 0) [1, 2, 3] 2 0).2).getD 1 0
          - (1 + 1 ^ 2 / 12 * numerovF (fun _ => 0) [1, 2, 3] 2 0 0) *
            ((numerov_solve (fun _ => 0) [1, 2, 3] 2 0).2).getD 0 0)
        / (1 + 1 ^ 2 / 12 * numerovF (fun _ => 0) [1, 2, 3] 2 0 2) :=
  numerov_recurrence_step (fun _ => 0) [1, 2, 3] 2 0 1 3 1 rfl (by norm_num)
    (by
      intro j hj
      have hj2 : j < 2 := by omega
      interval_cases j <;> norm_num [gridAt])
    (by norm_num) (by norm_num)

/-- Claim C4 (amended): with `r[0] = 0` and `l = 1` the centrifugal term
divides by `r[0]^2 = 0` (a zero divisor the code evaluates), yet
`numerov_solve` raises no domain error: it still returns a full-length
result. -/
theorem zero_origin_is_silent (V : ℚ → ℚ) (r : List ℚ) (k : ℚ)
    (h0 : gridAt r 0 = 0) (h1 : 1 ≤ r.length) :
    gridAt r 0 ^ 2 = 0 ∧ gridAt r 0 ^ 2 ∈ numerovDivisors V r k 1 ∧
      ((numerov_solve V r k 1).2).length = r.length := by
  have hmem : gridAt r 0 ^ 2 ∈ (List.range r.length).map (fun i => gridAt r i ^ 2) :=
    List.mem_map_of_mem _ (List.mem_range.mpr (by omega))
  refine ⟨by rw [h0]; norm_num, ?_, by simp [numerov_solve]⟩
  simp only [numerovDivisors, List.mem_append]
  tauto

/-- Claim C4 (witness): the concrete grid `[0, 1, 2]` with `l = 1`: the
centrifugal divisor at the origin is zero, it is among the divisors the code
evaluates, and a length-3 array is still returned. -/
theorem zero_origin_is_silent_witness :
    gridAt [0, 1, 2] 0 ^ 2 = 0 ∧
      gridAt [0, 1, 2] 0 ^ 2 ∈ numerovDivisors (fun _ => 0) [0, 1, 2] 1 1 ∧
      ((numerov_solve (fun _ => 0) [0, 1, 2] 1 1).2).length = 3 :=
  zero_origin_is_silent (fun _ => 0) [0, 1, 2] 1 rfl (by norm_num)

/-- Claim C4 (counterexample): calling the solver on the grid `[0, 1, 2]` with
`l = 1` does not fail: it returns a full length-3 wavefunction even though the
first grid point is `0` (in the source's floating-point arithmetic the
division by zero merely emits non-finite values into the result; no error is
raised). -/
theorem zero_origin_counterexample :
    gridAt [0, 1, 2] 0 = 0 ∧
      ((numerov_solve (fun _ => 0) [0, 1, 2] 1 1).2).length = 3 :=
  ⟨rfl, rfl⟩

/-- Claim C6 (amended): `numerov_solve` performs no input validation: a grid
with fewer than 3 points (here `N = 2`) is processed silently — it returns the
two seed values `[0, r[1]^(l+1)]` with no error. -/
theorem no_validation_small_grid (V : ℚ → ℚ) (r : List ℚ) (k : ℚ) (l : ℕ)
    (h2 : r.length = 2) :
    (numerov_solve V r k l).2 = [0, gridAt r 1 ^ (l + 1)] := by
  have hr : List.range r.length = [0, 1] := by rw [h2]; rfl
  show (List.range r.length).map (numerovU V r k l) = _
  rw [hr]
  rfl

/-- Claim C6 (witness): on the two-point grid `[5, 7]` the solver silently
returns the seeds `[0, 7]`. -/
theorem no_validation_small_grid_witness :
    (numerov_solve (fun _ => 0) [5, 7] 1 0).2 = [0, gridAt [5, 7] 1 ^ (0 + 1)] :=
  no_validation_small_grid (fun _ => 0) [5, 7] 1 0 rfl

/-- Claim C6 (counterexample): on the malformed (non-uniform) grid
`[1, 2, 10]` the solver does not fail fast: it silently returns the definite,
fully filled array `[0, 2, 28/13]` (computed with the step `h = r[1] - r[0] = 1`,
ignoring the non-uniform spacing). -/
theorem malformed_grid_counterexample :
    (numerov_solve (fun _ => 0) [1, 2, 10] 1 0).2 = [0, 2, 28 / 13] := by
  norm_num [numerov_solve, numerovU, numerovF, numerovVeff, stepH, gridAt,
    List.range_succ]

/-- Claim C8: under the preconditions that every grid point is strictly
positive and that the Numerov denominator `1 + h^2/12 * f[i+1]` is nonzero at
every interior step `i = 1 .. N-2`, every divisor the solver evaluates (the
centrifugal `r[i]^2`, the constant `12`, and the recurrence denominators) is
nonzero. -/
theorem numerov_no_zero_divisor (V : ℚ → ℚ) (r : List ℚ) (k : ℚ) (l : ℕ)
    (hr : ∀ i, i < r.length → 0 < gridAt r i)
    (hden : ∀ i, 1 ≤ i → i ≤ r.length - 2 →
      1 + stepH r ^ 2 / 12 * numerovF V r k l (i + 1) ≠ 0) :
    ∀ d ∈ numerovDivisors V r k l, d ≠ 0 := by
  intro d hd
  simp only [numerovDivisors, List.mem_append, List.mem_map, List.mem_range,
    List.mem_singleton] at hd
  rcases hd with (⟨i, hi, rfl⟩ | h12) | ⟨j, hj, rfl⟩
  · exact pow_ne_zero 2 (ne_of_gt (hr i hi))
  · rw [h12]
    norm_num
  · exact hden (j + 1) (by omega) (by omega)

/-- Claim C8 (witness): on the grid `[1, 2, 3]` with the zero potential,
`k = 1`, `l = 0`, the single interior Numerov denominator (which equals
`13/12`) is a divisor the code evaluates and it is nonzero. -/
theorem numerov_no_zero_divisor_witness :
    1 + stepH [1, 2, 3] ^ 2 / 12 * numerovF (fun _ => 0) [1, 2, 3] 1 0 2 ≠ 0 :=
  numerov_no_zero_divisor (fun _ => 0) [1, 2, 3] 1 0
    (by
      intro i hi
      have h3 : i < 3 := by simpa using hi
      interval_cases i <;> norm_num [gridAt])
    (by
      intro i hi1 hi2
      have hi : i = 1 := by simp at hi2; omega
      subst hi
      norm_num [stepH, numerovF, numerovVeff, gridAt])
    _
    (by
      simp only [numerovDivisors, List.mem_append]
      right
      exact List.mem_map_of_mem _
        (show (0 : ℕ) ∈ List.range (([1, 2, 3] : List ℚ).length - 2) from
          List.mem_range.mpr (by decide)))

end SESolver
